import Mathlib

/-!
Shallow embedding of `src/src-tauri/src/lib.rs` (hyperliquid-heatmap):
the order-book aggregation state (`OrderBookState`, `update_history`),
the websocket feed-client retry loop (`start_websocket_connection`,
modelled as `runClient` over iteration outcomes), the per-message
aggregation step (`applyMsg`), and the SVG heatmap renderer
(`generate_heatmap`, modelled as a list of drawing elements).

Machine doubles (`f64`) are modelled by `FVal`: finite values are exact
rationals (the embedding abstracts from binary rounding), with explicit
NaN / +infinity / -infinity values and IEEE-style operations as used by
the source (`f64::max`, `f64::min`, subtraction, division, `as i32`
saturating casts).
-/

/-- Model of an IEEE-754 double as stored and compared by the program.
Finite values are modelled exactly as rationals; the special values are
explicit constructors. -/
inductive FVal where
  | finite (q : ℚ)
  | inf
  | neginf
  | nan
deriving DecidableEq

namespace FVal

/-- IEEE `<=` on doubles (`a <= b` in Rust): any comparison with NaN is false. -/
def fleb : FVal → FVal → Bool
  | .nan, _ => false
  | _, .nan => false
  | .neginf, _ => true
  | _, .neginf => false
  | _, .inf => true
  | .inf, _ => false
  | .finite p, .finite q => decide (p ≤ q)

/-- The strict total order of the `OrderedFloat` wrapper used for the map keys:
`-inf < finite q < +inf < NaN`. -/
def flt : FVal → FVal → Bool
  | .finite p, .finite q => decide (p < q)
  | .finite _, .inf => true
  | .finite _, .neginf => false
  | .finite _, .nan => true
  | .neginf, .neginf => false
  | .neginf, _ => true
  | .inf, .nan => true
  | .inf, _ => false
  | .nan, _ => false

/-- Rust `f64::max`: if one argument is NaN the other is returned. -/
def fmaxRust : FVal → FVal → FVal
  | .nan, b => b
  | a, .nan => a
  | .neginf, b => b
  | a, .neginf => a
  | .inf, _ => .inf
  | _, .inf => .inf
  | .finite p, .finite q => .finite (max p q)

/-- Rust `f64::min`: if one argument is NaN the other is returned. -/
def fminRust : FVal → FVal → FVal
  | .nan, b => b
  | a, .nan => a
  | .inf, b => b
  | a, .inf => a
  | .neginf, _ => .neginf
  | _, .neginf => .neginf
  | .finite p, .finite q => .finite (min p q)

/-- IEEE subtraction on doubles (signed zero is not distinguished). -/
def fsub : FVal → FVal → FVal
  | .nan, _ => .nan
  | _, .nan => .nan
  | .inf, .inf => .nan
  | .inf, _ => .inf
  | .neginf, .neginf => .nan
  | .neginf, _ => .neginf
  | .finite _, .inf => .neginf
  | .finite _, .neginf => .inf
  | .finite p, .finite q => .finite (p - q)

/-- IEEE addition on doubles. -/
def fadd : FVal → FVal → FVal
  | .nan, _ => .nan
  | _, .nan => .nan
  | .inf, .neginf => .nan
  | .neginf, .inf => .nan
  | .inf, _ => .inf
  | _, .inf => .inf
  | .neginf, _ => .neginf
  | _, .neginf => .neginf
  | .finite p, .finite q => .finite (p + q)

/-- IEEE multiplication on doubles. -/
def fmul : FVal → FVal → FVal
  | .nan, _ => .nan
  | _, .nan => .nan
  | .inf, .inf => .inf
  | .inf, .neginf => .neginf
  | .neginf, .inf => .neginf
  | .neginf, .neginf => .inf
  | .inf, .finite q => if q = 0 then .nan else if 0 < q then .inf else .neginf
  | .finite q, .inf => if q = 0 then .nan else if 0 < q then .inf else .neginf
  | .neginf, .finite q => if q = 0 then .nan else if 0 < q then .neginf else .inf
  | .finite q, .neginf => if q = 0 then .nan else if 0 < q then .neginf else .inf
  | .finite p, .finite q => .finite (p * q)

/-- IEEE division on doubles (signed zero is not distinguished, so a finite
nonzero value divided by zero is sent to the infinity of its own sign). -/
def fdiv : FVal → FVal → FVal
  | .nan, _ => .nan
  | _, .nan => .nan
  | .inf, .inf => .nan
  | .inf, .neginf => .nan
  | .neginf, .inf => .nan
  | .neginf, .neginf => .nan
  | .inf, .finite q => if q < 0 then .neginf else .inf
  | .neginf, .finite q => if q < 0 then .inf else .neginf
  | .finite _, .inf => .finite 0
  | .finite _, .neginf => .finite 0
  | .finite p, .finite q =>
      if q = 0 then (if p = 0 then .nan else if 0 < p then .inf else .neginf)
      else .finite (p / q)

end FVal

/-- Truncation of a rational toward zero, as Rust float-to-int casts do. -/
def truncQ (q : ℚ) : Int := if 0 ≤ q then ⌊q⌋ else ⌈q⌉

/-- Rust `as i32` on a finite double: truncate toward zero and saturate. -/
def i32cast (q : ℚ) : Int := max (-(2 ^ 31)) (min (2 ^ 31 - 1) (truncQ q))

/-- Rust `as i32` on a double: NaN goes to 0, infinities saturate. -/
def ftoi32 : FVal → Int
  | .nan => 0
  | .inf => 2 ^ 31 - 1
  | .neginf => -(2 ^ 31)
  | .finite q => i32cast q

/-- Wrapping of an integer into the `i32` range (two's complement). -/
def wrap32 (n : Int) : Int := (n + 2 ^ 31) % 2 ^ 32 - 2 ^ 31

/-- The price-level map `BTreeMap<OrderedFloat<f64>, f64>`, modelled as an
association list kept sorted (ascending) by the `OrderedFloat` key order, so
that structural equality and iteration order agree with the B-tree map. -/
abbrev PLMap := List (FVal × FVal)

/-- Model of `BTreeMap::insert`: replace the value at an existing key, otherwise insert
at the sorted position. -/
def upsert : PLMap → FVal → FVal → PLMap
  | [], k, v => [(k, v)]
  | (k', v') :: t, k, v =>
      if k = k' then (k', v) :: t
      else if FVal.flt k k' then (k, v) :: (k', v') :: t
      else (k', v') :: upsert t k v

/-- Model of `BTreeMap::get`. -/
def lookupPL : PLMap → FVal → Option FVal
  | [], _ => none
  | (k', v') :: t, k => if k' = k then some v' else lookupPL t k

/-- One wire level of the `l2Book` message (`struct WsLevel`): textual price
and size plus the order count. -/
structure WsLevel where
  px : String
  sz : String
  n : Int
deriving DecidableEq

/-- The `data` part of a wire message (`struct WsBook`). -/
structure WsBook where
  coin : String
  levels : List (List WsLevel)
  time : Int
deriving DecidableEq

/-- The `struct OrderBookState`: current buy/sell maps plus the history of
`(timestamp, buy, sell)` snapshots. -/
structure OrderBookState where
  buy : PLMap
  sell : PLMap
  history : List (Int × PLMap × PLMap)
deriving DecidableEq

/-- Constructor `OrderBookState::new`. -/
def OrderBookState.new : OrderBookState := ⟨[], [], []⟩

/-- Method `OrderBookState::update_history`: push `(timestamp, buy, sell)`, then
retain only entries with `ts > timestamp - 300_000`. -/
def OrderBookState.update_history (s : OrderBookState) (timestamp : Int) :
    OrderBookState :=
  let pushed := s.history ++ [(timestamp, s.buy, s.sell)]
  { s with history := pushed.filter (fun e => decide (timestamp - 300000 < e.1)) }

/-- Numeric value of a digit string read in base 10. -/
def digitsVal (cs : List Char) : Nat :=
  cs.foldl (fun a c => a * 10 + (c.toNat - 48)) 0

/-- Split a character list at the first occurrence of `c`; the second
component is `none` when `c` does not occur. -/
def splitFirst (c : Char) : List Char → List Char × Option (List Char)
  | [] => ([], none)
  | x :: t =>
      if x = c then ([], some t)
      else
        let p := splitFirst c t
        (x :: p.1, p.2)

/-- Decimal part of Rust `f64::from_str` after the optional sign:
`digits [. digits] [e [sign] digits]` with at least one mantissa digit.
Values are exact rationals (binary rounding and overflow-to-infinity of
huge exponents are abstracted away). -/
def parseDec (cs : List Char) : Option ℚ :=
  let em := splitFirst 'e' (cs.map Char.toLower)
  let dm := splitFirst '.' em.1
  let ip := dm.1
  let fp := (dm.2).getD []
  if ip.all Char.isDigit ∧ fp.all Char.isDigit ∧ (ip ≠ [] ∨ fp ≠ []) then
    let base : ℚ := (digitsVal ip : ℚ) + (digitsVal fp : ℚ) / ((10 : ℚ) ^ fp.length)
    match em.2 with
    | none => some base
    | some ecs =>
        let es := match ecs with
          | '+' :: t => (false, t)
          | '-' :: t => (true, t)
          | t => (false, t)
        if es.2 ≠ [] ∧ es.2.all Char.isDigit then
          some (base * (if es.1 then 1 / (10 : ℚ) ^ digitsVal es.2
                        else (10 : ℚ) ^ digitsVal es.2))
        else none
  else none

/-- Model of Rust `str::parse::<f64>()` as called on `px` and `sz`:
optional sign, then case-insensitively `inf`, `infinity` or `nan`, or a
decimal literal. Anything else fails. -/
def parseF64 (s : String) : Option FVal :=
  match s.toList with
  | [] => none
  | cs =>
      let sr : Bool × List Char :=
        match cs with
        | '+' :: t => (false, t)
        | '-' :: t => (true, t)
        | t => (false, t)
      let lower := sr.2.map Char.toLower
      if lower = ['i', 'n', 'f'] ∨ lower = ['i', 'n', 'f', 'i', 'n', 'i', 't', 'y'] then
        some (if sr.1 then .neginf else .inf)
      else if lower = ['n', 'a', 'n'] then some .nan
      else match parseDec sr.2 with
        | some q => some (.finite (if sr.1 then -q else q))
        | none => none

/-- The tuple match `(level.px.parse::<f64>(), level.sz.parse::<f64>())`:
`some (price, size)` when both fields parse, `none` otherwise. -/
def parseLevel (l : WsLevel) : Option (FVal × FVal) :=
  match parseF64 l.px, parseF64 l.sz with
  | some p, some sz => some (p, sz)
  | _, _ => none

/-- One level of the aggregation loop body (`lib.rs` lines 168-184):
parse `px`/`sz`; on success insert into `buy` when the group index is 0,
into `sell` otherwise; a parse failure skips the level. -/
def insertLevel (st : OrderBookState) (i : Nat) (l : WsLevel) : OrderBookState :=
  match parseLevel l with
  | some q =>
      if i = 0 then { st with buy := upsert st.buy q.1 q.2 }
      else { st with sell := upsert st.sell q.1 q.2 }
  | none => st

/-- The `for (i, levels) in msg.data.levels.iter().enumerate()` loop,
with `i` the running group index. -/
def insertGroups (st : OrderBookState) (i : Nat) :
    List (List WsLevel) → OrderBookState
  | [] => st
  | g :: gs => insertGroups (g.foldl (fun a l => insertLevel a i l) st) (i + 1) gs

/-- One iteration of the aggregation loop (`lib.rs` lines 161-188): clear both
maps, insert each group's parsed levels by the group-0/rest partition, then
`update_history(msg.data.time)`. -/
def applyMsg (st : OrderBookState) (m : WsBook) : OrderBookState :=
  let cleared := { st with buy := ([] : PLMap), sell := ([] : PLMap) }
  (insertGroups cleared 0 m.levels).update_history m.time

/-- The map a sequence of levels builds when inserted in order into `acc`:
parsed levels only, price as key, size as value, later occurrences
overwriting earlier ones. -/
def buildMapFrom (acc : PLMap) : List WsLevel → PLMap
  | [] => acc
  | l :: t =>
      match parseLevel l with
      | some q => buildMapFrom (upsert acc q.1 q.2) t
      | none => buildMapFrom acc t

/-- Sizes of the parsed levels of `ls` whose parsed price is `p`, in order. -/
def parsedSizesAt : List WsLevel → FVal → List FVal
  | [], _ => []
  | l :: t, p =>
      match parseLevel l with
      | some q => if q.1 = p then q.2 :: parsedSizesAt t p else parsedSizesAt t p
      | none => parsedSizesAt t p

/-- Constant `HEATMAP_WIDTH`. -/
def HEATMAP_WIDTH : Int := 1920
/-- Constant `HEATMAP_HEIGHT`. -/
def HEATMAP_HEIGHT : Int := 1080
/-- Constant `RIGHT_MARGIN`. -/
def RIGHT_MARGIN : Int := 300
/-- Constant `ACTUAL_HEATMAP_WIDTH = HEATMAP_WIDTH - RIGHT_MARGIN`. -/
def ACTUAL_HEATMAP_WIDTH : Int := HEATMAP_WIDTH - RIGHT_MARGIN

/-- One SVG node added to the document by `generate_heatmap`, in `document.add`
order: the black background rectangle; a liquidity rectangle with its
geometry, `rgba` colour channels and alpha; the white per-snapshot mid-price
line; and the price-axis label and tick-line pairs. -/
inductive Element where
  | background (x y w : Int)
  | liquidity (x y w h : Int) (r g b : Nat) (alpha : FVal)
  | midline (x y w : Int)
  | priceLabel (x y : Int) (price : FVal)
  | tick (x1 x2 y1 y2 : Int)
deriving DecidableEq

/-- All level sizes of every snapshot of the history, buy values then sell
values per entry (`buy.values().chain(sell.values())`). -/
def allSizes (s : OrderBookState) : List FVal :=
  s.history.flatMap fun e => e.2.1.map Prod.snd ++ e.2.2.map Prod.snd

/-- The `max_size` value: fold of `f64::max` over all sizes starting from `0.0`. -/
def maxSize (s : OrderBookState) : FVal :=
  (allSizes s).foldl FVal.fmaxRust (FVal.finite 0)

/-- All price keys of every snapshot of the history
(`buy.keys().chain(sell.keys())`). -/
def allPrices (s : OrderBookState) : List FVal :=
  s.history.flatMap fun e => e.2.1.map Prod.fst ++ e.2.2.map Prod.fst

/-- The `min_price` value: fold of `f64::min` over all prices starting from `INFINITY`. -/
def minPrice (s : OrderBookState) : FVal :=
  (allPrices s).foldl FVal.fminRust FVal.inf

/-- The `max_price` value: fold of `f64::max` over all prices starting from
`NEG_INFINITY`. -/
def maxPrice (s : OrderBookState) : FVal :=
  (allPrices s).foldl FVal.fmaxRust FVal.neginf

/-- The `price_range = max_price - min_price` value. -/
def priceRange (s : OrderBookState) : FVal :=
  FVal.fsub (maxPrice s) (minPrice s)

/-- The alpha of a rendered level: `(size / max_size).min(1.0)`. -/
def alphaOf (size maxSz : FVal) : FVal :=
  FVal.fminRust (FVal.fdiv size maxSz) (FVal.finite 1)

/-- The y coordinate of a price:
`HEATMAP_HEIGHT - ((price - min_price) / price_range * HEATMAP_HEIGHT) as i32`
(the outer `i32` subtraction wraps). -/
def yCoord (minP range p : FVal) : Int :=
  wrap32 (HEATMAP_HEIGHT -
    ftoi32 (FVal.fmul (FVal.fdiv (FVal.fsub p minP) range) (FVal.finite 1080)))

/-- The x coordinate of a snapshot:
`((ts - five_minutes_ago) as f64 / 300_000.0 * ACTUAL_HEATMAP_WIDTH as f64) as i32`. -/
def timeXCoord (fiveAgo ts : Int) : Int :=
  i32cast (((ts - fiveAgo : Int) : ℚ) / 300000 * 1620)

/-- The bar width
`(ACTUAL_HEATMAP_WIDTH as f64 / history.len() as f64).ceil() as i32 + 1`. -/
def barWidth (len : Nat) : Int :=
  ⌈(1620 : ℚ) / (len : ℚ)⌉ + 1

/-- The mid price of one snapshot: best bid (maximum buy key, `0.0` when the
buy side is empty) plus best ask (minimum sell key, `0.0` when empty), halved. -/
def midPrice (e : Int × PLMap × PLMap) : FVal :=
  FVal.fdiv
    (FVal.fadd ((e.2.1.getLast?.map Prod.fst).getD (FVal.finite 0))
      ((e.2.2.head?.map Prod.fst).getD (FVal.finite 0)))
    (FVal.finite 2)

/-- The nodes drawn for one snapshot: sell levels in descending price order as
red `rgba(255,0,0,alpha)` rectangles of height 2, buy levels in ascending
order as green `rgba(0,255,0,alpha)` rectangles of height 2, then the white
mid-price line. -/
def snapshotElems (minP range maxSz : FVal) (fiveAgo barW : Int)
    (e : Int × PLMap × PLMap) : List Element :=
  let tx := timeXCoord fiveAgo e.1
  (e.2.2.reverse.map fun pv =>
      Element.liquidity tx (yCoord minP range pv.1) barW 2 255 0 0 (alphaOf pv.2 maxSz)) ++
    (e.2.1.map fun pv =>
      Element.liquidity tx (yCoord minP range pv.1) barW 2 0 255 0 (alphaOf pv.2 maxSz)) ++
    [Element.midline tx (yCoord minP range (midPrice e)) barW]

/-- The price-axis legend: for `i in 0..=10`, a label at
`min_price + price_range * i / 10` and a tick line, both at
`y = (HEATMAP_HEIGHT * (1 - i / 10)) as i32`. -/
def axisElems (minP range : FVal) : List Element :=
  (List.range 11).flatMap fun i =>
    let price := FVal.fadd minP
      (FVal.fdiv (FVal.fmul range (FVal.finite (i : ℚ))) (FVal.finite 10))
    let y := i32cast ((1080 : ℚ) * (1 - (i : ℚ) / 10))
    [Element.priceLabel (ACTUAL_HEATMAP_WIDTH + 20) (y + 5) price,
      Element.tick ACTUAL_HEATMAP_WIDTH (ACTUAL_HEATMAP_WIDTH + 10) y y]

/-- Function `generate_heatmap` (`lib.rs` lines 205-361), as the list of nodes added to
the SVG document in order. When `max_size <= 0.0` the function returns the
document before anything (background included) has been added, so the element
list is empty. Otherwise: background, then per-snapshot sell/buy rectangles
and mid lines (the loop runs only when the history has a last entry), then
the price-axis group. -/
def generate_heatmap (s : OrderBookState) : List Element :=
  if FVal.fleb (maxSize s) (FVal.finite 0) then []
  else
    let minP := minPrice s
    let range := priceRange s
    let body :=
      match s.history.getLast? with
      | none => []
      | some last =>
          s.history.flatMap
            (snapshotElems minP range (maxSize s) (last.1 - 300000)
              (barWidth s.history.length))
    Element.background 0 0 ACTUAL_HEATMAP_WIDTH :: (body ++ axisElems minP range)

/-- The divisor of every division feeding a y coordinate that
`generate_heatmap` performs, in evaluation order: one `price_range` divisor
per sell level, per buy level and per mid line of every snapshot drawn. -/
def yDivisors (s : OrderBookState) : List FVal :=
  if FVal.fleb (maxSize s) (FVal.finite 0) then []
  else
    match s.history.getLast? with
    | none => []
    | some _ =>
        s.history.flatMap fun e =>
          (e.2.2.map fun _ => priceRange s) ++
            (e.2.1.map fun _ => priceRange s) ++ [priceRange s]

/-- Recognizer for liquidity rectangles among the document nodes. -/
def isLiquidity : Element → Bool
  | .liquidity _ _ _ _ _ _ _ _ => true
  | _ => false

/-- Height of a rectangle node (0 for non-rectangle nodes). -/
def elemHeight : Element → Int
  | .liquidity _ _ _ h _ _ _ _ => h
  | _ => 0

/-- The spec boundary state: a single snapshot whose only level has size 0,
so `max_size = 0`. -/
def degenerateRender : OrderBookState :=
  ⟨[], [], [(1000, [(FVal.finite 10, FVal.finite 0)], [])]⟩

/-- The spec scenario snapshot: buy level (10.0, 5), sell level (11.0, 3). -/
def levelsRenderState : OrderBookState :=
  ⟨[], [], [(1000, [(FVal.finite 10, FVal.finite 5)], [(FVal.finite 11, FVal.finite 3)])]⟩

/-- A window whose prices all coincide: one snapshot, one buy level (10, 5). -/
def flatRangeState : OrderBookState :=
  ⟨[], [], [(1000, [(FVal.finite 10, FVal.finite 5)], [])]⟩

/-- One complete iteration of the reconnection loop of
`start_websocket_connection` (`lib.rs` lines 89-155), abstracted by how the
iteration ends: the connect fails; the subscription send fails; or the
subscription succeeds (resetting `retry_count` to 0) after which the receive
loop terminates by the stream ending, a stream error, or a failed send into
the bounded update queue (all three `break`/fall out of the inner loop only —
the outer `loop` has no exit). Parse failures do not end the receive loop and
so do not appear. -/
inductive IterOutcome where
  | connectFail
  | sendFail
  | streamEnd
  | streamError
  | queueSendFail
deriving DecidableEq

/-- The seconds slept at the top of a loop iteration before the connect
attempt: nothing when `retry_count = 0`, otherwise
`min(1 << retry_count, 30)`. -/
def delayFor (retryCount : Nat) : Nat :=
  if 0 < retryCount then min (2 ^ retryCount) 30 else 0

/-- The `retry_count` after one iteration: connect and subscription-send failures
increment it; the three post-subscribe outcomes leave it at the 0 it was reset
to when the subscription send succeeded. -/
def nextRetryCount (retryCount : Nat) : IterOutcome → Nat
  | .connectFail => retryCount + 1
  | .sendFail => retryCount + 1
  | .streamEnd => 0
  | .streamError => 0
  | .queueSendFail => 0

/-- The reconnection loop run over a sequence of iteration outcomes: one
connection attempt per outcome, returning the backoff delay slept before each
attempt. The outer loop never exits, so every outcome of the trace corresponds
to a connection attempt actually made. -/
def runClient (retryCount : Nat) : List IterOutcome → List Nat
  | [] => []
  | o :: os => delayFor retryCount :: runClient (nextRetryCount retryCount o) os

/-- Claim C2: membership in the history after an append-then-purge cycle is
exactly: the entry is the freshly appended one or was already present, and its
timestamp is strictly newer than `latest - 300_000` ms. -/
theorem update_history_window (s : OrderBookState) (t : Int)
    (e : Int × PLMap × PLMap) :
    e ∈ (s.update_history t).history ↔
      (e ∈ s.history ∨ e = (t, s.buy, s.sell)) ∧ t - 300000 < e.1 := by
  simp only [OrderBookState.update_history, List.mem_filter, List.mem_append,
    List.mem_singleton, decide_eq_true_eq]

/-- Claim C10: the purge never removes the entry just appended, so the history
is non-empty after every update and its last element is exactly the new
`(timestamp, buy, sell)` snapshot. -/
theorem update_history_keeps_last (s : OrderBookState) (t : Int) :
    (s.update_history t).history.getLast? = some (t, s.buy, s.sell) ∧
      (s.update_history t).history ≠ [] := by
  have hlt : t - 300000 < t := by omega
  have hfilter : (s.update_history t).history =
      s.history.filter (fun e => decide (t - 300000 < e.1)) ++
        [(t, s.buy, s.sell)] := by
    simp [OrderBookState.update_history, List.filter_append, hlt]
  constructor
  · rw [hfilter]
    exact List.getLast?_concat _
  · rw [hfilter]
    simp

theorem lookupPL_upsert_self (m : PLMap) (k v : FVal) :
    lookupPL (upsert m k v) k = some v := by
  induction m with
  | nil => simp [upsert, lookupPL]
  | cons a t ih =>
      obtain ⟨k', v'⟩ := a
      by_cases h : k = k'
      · simp [upsert, h, lookupPL]
      · by_cases h2 : FVal.flt k k'
        · simp [upsert, h, h2, lookupPL]
        · have hne : k' ≠ k := fun hh => h hh.symm
          simp [upsert, h, h2, lookupPL, hne, ih]

theorem lookupPL_upsert_ne (m : PLMap) {k p : FVal} (v : FVal) (h : p ≠ k) :
    lookupPL (upsert m k v) p = lookupPL m p := by
  induction m with
  | nil =>
      have hne : k ≠ p := fun hh => h hh.symm
      simp [upsert, lookupPL, hne]
  | cons a t ih =>
      obtain ⟨k', v'⟩ := a
      by_cases hk : k = k'
      · have hne : k' ≠ p := fun hh => h (hk ▸ hh.symm ▸ rfl)
        subst hk
        simp [upsert, lookupPL, hne]
      · by_cases h2 : FVal.flt k k'
        · have hne : k ≠ p := fun hh => h hh.symm
          simp [upsert, hk, h2, lookupPL, hne]
        · simp [upsert, hk, h2, lookupPL, ih]

theorem getLast?_cons_or {α : Type} (a : α) (xs : List α) (y : Option α) :
    ((a :: xs).getLast?).or y = (xs.getLast?).or (some a) := by
  cases xs with
  | nil => rfl
  | cons b t =>
      rw [List.getLast?_cons_cons]
      cases h : (b :: t).getLast? with
      | none => exact absurd (List.getLast?_eq_none_iff.mp h) (by simp)
      | some c => rfl

/-- Inserting a sequence of levels into a map makes lookup at each price
return the size of the last parsed occurrence with that price, falling back
to the previous binding. -/
theorem lookupPL_buildMapFrom (ls : List WsLevel) :
    ∀ (acc : PLMap) (p : FVal),
      lookupPL (buildMapFrom acc ls) p =
        ((parsedSizesAt ls p).getLast?).or (lookupPL acc p) := by
  induction ls with
  | nil => intro acc p; rfl
  | cons l t ih =>
      intro acc p
      cases hl : parseLevel l with
      | none => simp [buildMapFrom, parsedSizesAt, hl, ih]
      | some q =>
          by_cases hp : q.1 = p
          · subst hp
            simp only [buildMapFrom, parsedSizesAt, hl, eq_self_iff_true, if_true]
            rw [ih, lookupPL_upsert_self, getLast?_cons_or]
          · have hpq : p ≠ q.1 := fun hh => hp hh.symm
            simp only [buildMapFrom, parsedSizesAt, hl, if_neg hp]
            rw [ih, lookupPL_upsert_ne _ _ hpq]

theorem foldl_insertLevel_zero (g : List WsLevel) :
    ∀ st : OrderBookState,
      g.foldl (fun a l => insertLevel a 0 l) st =
        { st with buy := buildMapFrom st.buy g } := by
  induction g with
  | nil => intro st; rfl
  | cons l t ih =>
      intro st
      rw [List.foldl_cons, ih]
      cases hl : parseLevel l with
      | none => simp [insertLevel, buildMapFrom, hl]
      | some q => simp [insertLevel, buildMapFrom, hl]

theorem foldl_insertLevel_pos (g : List WsLevel) :
    ∀ (st : OrderBookState) (i : Nat), i ≠ 0 →
      g.foldl (fun a l => insertLevel a i l) st =
        { st with sell := buildMapFrom st.sell g } := by
  induction g with
  | nil => intro st i _; rfl
  | cons l t ih =>
      intro st i hi
      rw [List.foldl_cons, ih _ i hi]
      cases hl : parseLevel l with
      | none => simp [insertLevel, buildMapFrom, hl, hi]
      | some q => simp [insertLevel, buildMapFrom, hl, hi]

theorem buildMapFrom_append (l1 l2 : List WsLevel) :
    ∀ acc : PLMap,
      buildMapFrom acc (l1 ++ l2) = buildMapFrom (buildMapFrom acc l1) l2 := by
  induction l1 with
  | nil => intro acc; rfl
  | cons l t ih =>
      intro acc
      cases hl : parseLevel l with
      | none => simp [buildMapFrom, hl, ih]
      | some q => simp [buildMapFrom, hl, ih]

theorem insertGroups_pos (gs : List (List WsLevel)) :
    ∀ (st : OrderBookState) (i : Nat), i ≠ 0 →
      insertGroups st i gs = { st with sell := buildMapFrom st.sell gs.flatten } := by
  induction gs with
  | nil => intro st i _; rfl
  | cons g t ih =>
      intro st i hi
      rw [insertGroups, foldl_insertLevel_pos g st i hi,
        ih _ (i + 1) (Nat.succ_ne_zero i), List.flatten_cons, buildMapFrom_append]

/-- The aggregation step replaces the maps wholesale: after `applyMsg` the
buy map is built from group 0 alone and the sell map from the concatenation
of all later groups, whatever the previous state held. -/
theorem applyMsg_fields (st : OrderBookState) (m : WsBook) :
    (applyMsg st m).buy = buildMapFrom [] (m.levels.headD []) ∧
      (applyMsg st m).sell = buildMapFrom [] m.levels.tail.flatten := by
  have hbuy : ∀ s' : OrderBookState, (s'.update_history m.time).buy = s'.buy :=
    fun _ => rfl
  have hsell : ∀ s' : OrderBookState, (s'.update_history m.time).sell = s'.sell :=
    fun _ => rfl
  cases hm : m.levels with
  | nil =>
      constructor
      · simp [applyMsg, hm, insertGroups, hbuy, buildMapFrom]
      · simp [applyMsg, hm, insertGroups, hsell, buildMapFrom]
  | cons g gs =>
      have h0 := foldl_insertLevel_zero g
        { st with buy := ([] : PLMap), sell := ([] : PLMap) }
      have h1 := insertGroups_pos gs
        { st with buy := buildMapFrom ([] : PLMap) g, sell := ([] : PLMap) } 1
        one_ne_zero
      constructor
      · simp [applyMsg, hm, insertGroups, hbuy, h0, h1]
      · simp [applyMsg, hm, insertGroups, hsell, h0, h1]

/-- Claim C1: after any non-empty sequence of updates applied in order by the
aggregation loop, the current buy map is exactly the map built from group 0 of
the last update and the current sell map exactly the map built from all groups
at index 1 or greater, with nothing surviving from earlier updates; lookup in
such a map returns the size of the last parsed occurrence of a price. -/
theorem C1_wholesale_replace (s : OrderBookState) (msgs : List WsBook)
    (m : WsBook) (h : msgs.getLast? = some m) :
    (msgs.foldl applyMsg s).buy = buildMapFrom [] (m.levels.headD []) ∧
      (msgs.foldl applyMsg s).sell = buildMapFrom [] m.levels.tail.flatten ∧
      ∀ (ls : List WsLevel) (p : FVal),
        lookupPL (buildMapFrom [] ls) p = (parsedSizesAt ls p).getLast? := by
  obtain ⟨pre, rfl⟩ := List.getLast?_eq_some_iff.mp h
  rw [List.foldl_append]
  have hf := applyMsg_fields (pre.foldl applyMsg s) m
  refine ⟨by simpa using hf.1, by simpa using hf.2, ?_⟩
  intro ls p
  rw [lookupPL_buildMapFrom]
  simp [lookupPL]

/-- Witness for C1 at the spec's scenario message. -/
theorem C1_wholesale_replace_witness :
    ((([⟨"@107", [[⟨"10.0", "5", 1⟩], [⟨"11.0", "3", 1⟩]], 1000⟩] : List WsBook).foldl
        applyMsg OrderBookState.new).buy = buildMapFrom [] [⟨"10.0", "5", 1⟩]) ∧
      ((([⟨"@107", [[⟨"10.0", "5", 1⟩], [⟨"11.0", "3", 1⟩]], 1000⟩] : List WsBook).foldl
        applyMsg OrderBookState.new).sell = buildMapFrom [] [⟨"11.0", "3", 1⟩]) := by
  have h := C1_wholesale_replace OrderBookState.new
    [⟨"@107", [[⟨"10.0", "5", 1⟩], [⟨"11.0", "3", 1⟩]], 1000⟩]
    ⟨"@107", [[⟨"10.0", "5", 1⟩], [⟨"11.0", "3", 1⟩]], 1000⟩ rfl
  exact ⟨h.1, h.2.1⟩

theorem mem_allSizes_buy (s : OrderBookState) (e : Int × PLMap × PLMap)
    (he : e ∈ s.history) (pv : FVal × FVal) (hpv : pv ∈ e.2.1) :
    pv.2 ∈ allSizes s := by
  rw [allSizes, List.mem_flatMap]
  exact ⟨e, he, by rw [List.mem_append]; exact Or.inl (List.mem_map_of_mem _ hpv)⟩

theorem mem_allSizes_sell (s : OrderBookState) (e : Int × PLMap × PLMap)
    (he : e ∈ s.history) (pv : FVal × FVal) (hpv : pv ∈ e.2.2) :
    pv.2 ∈ allSizes s := by
  rw [allSizes, List.mem_flatMap]
  exact ⟨e, he, by rw [List.mem_append]; exact Or.inr (List.mem_map_of_mem _ hpv)⟩

/-- Provenance of liquidity rectangles: every liquidity node of the rendered
document has height 2, the computed bar width, the red or green hue, and an
alpha produced by `alphaOf` from some level size of the window. -/
theorem liquidity_elem_src (s : OrderBookState) (e : Element)
    (he : e ∈ generate_heatmap s) (x y w h : Int) (r g b : Nat) (a : FVal)
    (hl : e = Element.liquidity x y w h r g b a) :
    h = 2 ∧ w = barWidth s.history.length ∧
      ((r, g, b) = (255, 0, 0) ∨ (r, g, b) = (0, 255, 0)) ∧
      ∃ v ∈ allSizes s, a = alphaOf v (maxSize s) := by
  subst hl
  rw [generate_heatmap] at he
  by_cases hms : FVal.fleb (maxSize s) (FVal.finite 0) = true
  · simp [hms] at he
  · rw [if_neg hms] at he
    rcases List.mem_cons.mp he with hbg | he2
    · exact absurd hbg (by simp)
    rcases List.mem_append.mp he2 with hbody | haxis
    · cases hgl : s.history.getLast? with
      | none => rw [hgl] at hbody; simp at hbody
      | some last =>
          rw [hgl] at hbody
          obtain ⟨entry, hentry, helem⟩ := List.mem_flatMap.mp hbody
          rw [snapshotElems] at helem
          rcases List.mem_append.mp helem with hsb | hmid
          · rcases List.mem_append.mp hsb with hsell | hbuy
            · obtain ⟨pv, hpv, heq⟩ := List.mem_map.mp hsell
              obtain ⟨rfl, rfl, rfl, rfl, rfl, rfl, rfl, rfl⟩ :=
                Element.liquidity.inj heq.symm
              exact ⟨rfl, rfl, Or.inl rfl,
                ⟨pv.2, mem_allSizes_sell s entry hentry pv
                  (List.mem_reverse.mp hpv), rfl⟩⟩
            · obtain ⟨pv, hpv, heq⟩ := List.mem_map.mp hbuy
              obtain ⟨rfl, rfl, rfl, rfl, rfl, rfl, rfl, rfl⟩ :=
                Element.liquidity.inj heq.symm
              exact ⟨rfl, rfl, Or.inr rfl,
                ⟨pv.2, mem_allSizes_buy s entry hentry pv hpv, rfl⟩⟩
          · simp at hmid
    · rw [axisElems] at haxis
      obtain ⟨i, _, hmem⟩ := List.mem_flatMap.mp haxis
      simp at hmem

theorem alphaOf_finite {q M : ℚ} (hM : 0 < M) :
    alphaOf (FVal.finite q) (FVal.finite M) = FVal.finite (min (q / M) 1) := by
  rw [alphaOf, FVal.fdiv]
  rw [if_neg (ne_of_gt hM)]
  rfl

/-- Claim C6: in a window whose sizes are non-negative finite values and whose
max size is positive, every rendered liquidity rectangle's alpha is a rational
in [0, 1], and the alpha formula yields exactly 1 precisely when the level's
size is at least the max size. -/
theorem C6_alpha_clamp (s : OrderBookState)
    (hfin : ∀ v ∈ allSizes s, ∃ q : ℚ, v = FVal.finite q ∧ 0 ≤ q)
    (hpos : ∃ M : ℚ, maxSize s = FVal.finite M ∧ 0 < M) :
    (∀ e ∈ generate_heatmap s, ∀ x y w h : Int, ∀ r g b : Nat, ∀ a : FVal,
        e = Element.liquidity x y w h r g b a →
          ∃ aq : ℚ, a = FVal.finite aq ∧ 0 ≤ aq ∧ aq ≤ 1) ∧
      ∀ v ∈ allSizes s,
        (alphaOf v (maxSize s) = FVal.finite 1 ↔
          FVal.fleb (maxSize s) v = true) := by
  obtain ⟨M, hM, hMpos⟩ := hpos
  have key : ∀ v ∈ allSizes s, ∃ q : ℚ, 0 ≤ q ∧ v = FVal.finite q ∧
      alphaOf v (maxSize s) = FVal.finite (min (q / M) 1) := by
    intro v hv
    obtain ⟨q, rfl, hq⟩ := hfin v hv
    exact ⟨q, hq, rfl, by rw [hM, alphaOf_finite hMpos]⟩
  constructor
  · intro e he x y w h r g b a hl
    obtain ⟨_, _, _, v, hv, rfl⟩ := liquidity_elem_src s e he x y w h r g b a hl
    obtain ⟨q, hq, rfl, halpha⟩ := key v hv
    refine ⟨min (q / M) 1, halpha, le_min (div_nonneg hq hMpos.le) one_pos.le,
      min_le_right _ _⟩
  · intro v hv
    obtain ⟨q, hq, rfl, halpha⟩ := key v hv
    rw [halpha, hM]
    constructor
    · intro h1
      have : min (q / M) 1 = 1 := FVal.finite.inj h1
      have hle : M ≤ q := (one_le_div hMpos).mp (min_eq_right_iff.mp this)
      simp [FVal.fleb, hle]
    · intro hle
      have hle2 : M ≤ q := by
        have := hle
        rw [FVal.fleb] at this
        exact of_decide_eq_true this
      have : (1 : ℚ) ≤ q / M := (one_le_div hMpos).mpr hle2
      rw [min_eq_right_iff.mpr this]

theorem fmaxRust_le_zero {a b : FVal}
    (ha : FVal.fleb a (FVal.finite 0) = true)
    (hb : FVal.fleb b (FVal.finite 0) = true) :
    FVal.fleb (FVal.fmaxRust a b) (FVal.finite 0) = true := by
  cases a <;> cases b <;>
    simp_all [FVal.fleb, FVal.fmaxRust, max_le_iff]

theorem foldl_fmaxRust_le_zero (l : List FVal) :
    ∀ acc : FVal, FVal.fleb acc (FVal.finite 0) = true →
      (∀ v ∈ l, FVal.fleb v (FVal.finite 0) = true) →
      FVal.fleb (l.foldl FVal.fmaxRust acc) (FVal.finite 0) = true := by
  induction l with
  | nil => intro acc ha _; simpa using ha
  | cons x t ih =>
      intro acc ha hl
      rw [List.foldl_cons]
      exact ih _ (fmaxRust_le_zero ha (hl x (by simp)))
        (fun v hv => hl v (by simp [hv]))

/-- Claim C3 (amended): when no level exists or every level size compares at
most zero, `max_size <= 0.0` holds and `generate_heatmap` returns the document
before anything was added to it: the output is completely empty — no liquidity
rectangle, and no background rectangle either. -/
theorem C3_empty_render (s : OrderBookState)
    (h : ∀ v ∈ allSizes s, FVal.fleb v (FVal.finite 0) = true) :
    generate_heatmap s = [] := by
  have hms : FVal.fleb (maxSize s) (FVal.finite 0) = true :=
    foldl_fmaxRust_le_zero (allSizes s) (FVal.finite 0) (by simp [FVal.fleb]) h
  simp [generate_heatmap, hms]

/-- Claim C3 counterexample: at the single-snapshot window with `max_size = 0`
the rendered document is empty; in particular it does not contain the
background rectangle, so the image is not background-only. -/
theorem C3_counterexample :
    generate_heatmap degenerateRender = [] ∧
      Element.background 0 0 ACTUAL_HEATMAP_WIDTH ∉
        generate_heatmap degenerateRender := by
  have h : generate_heatmap degenerateRender = [] := by with_unfolding_all rfl
  exact ⟨h, by rw [h]; simp⟩

/-- Witness for C3 (amended) at the boundary state. -/
theorem C3_empty_render_witness : generate_heatmap degenerateRender = [] := by
  have hs : allSizes degenerateRender = [FVal.finite 0] := by
    with_unfolding_all rfl
  refine C3_empty_render degenerateRender ?_
  intro v hv
  rw [hs] at hv
  rw [List.mem_singleton.mp hv]
  simp [FVal.fleb]

/-- Witness for C6 at the scenario snapshot, size 3 against max size 5. -/
theorem C6_alpha_clamp_witness :
    alphaOf (FVal.finite 3) (maxSize levelsRenderState) = FVal.finite 1 ↔
      FVal.fleb (maxSize levelsRenderState) (FVal.finite 3) = true := by
  have hs : allSizes levelsRenderState = [FVal.finite 5, FVal.finite 3] := by
    with_unfolding_all rfl
  have hM : maxSize levelsRenderState = FVal.finite 5 := by
    with_unfolding_all rfl
  have h := C6_alpha_clamp levelsRenderState
    (by
      intro v hv
      rw [hs] at hv
      rcases List.mem_cons.mp hv with rfl | hv2
      · exact ⟨5, rfl, by norm_num⟩
      · rw [List.mem_singleton.mp hv2]
        exact ⟨3, rfl, by norm_num⟩)
    ⟨5, hM, by norm_num⟩
  exact h.2 (FVal.finite 3) (by rw [hs]; simp)

/-- Claim C7 (amended): the renderer has no guard for a zero price range: as
soon as one snapshot is drawn (`max_size > 0`), every y-coordinate division it
performs uses `price_range` as divisor, and when the window's prices span a
zero range those divisions divide by zero. -/
theorem C7_no_zero_range_guard (s : OrderBookState)
    (hms : FVal.fleb (maxSize s) (FVal.finite 0) = false)
    (e : Int × PLMap × PLMap) (he : e ∈ s.history) :
    priceRange s ∈ yDivisors s ∧
      (∀ d ∈ yDivisors s, d = priceRange s) ∧
      (priceRange s = FVal.finite 0 → FVal.finite 0 ∈ yDivisors s) := by
  have hne : s.history ≠ [] := fun hnil => by rw [hnil] at he; exact absurd he (by simp)
  obtain ⟨last, hlast⟩ :=
    Option.ne_none_iff_exists'.mp (fun hnone => hne (List.getLast?_eq_none_iff.mp hnone))
  have hyd : yDivisors s =
      s.history.flatMap (fun e =>
        (e.2.2.map fun _ => priceRange s) ++
          (e.2.1.map fun _ => priceRange s) ++ [priceRange s]) := by
    rw [yDivisors, if_neg (by simp [hms]), hlast]
  refine ⟨?_, ?_, ?_⟩
  · rw [hyd, List.mem_flatMap]
    exact ⟨e, he, by simp⟩
  · intro d hd
    rw [hyd, List.mem_flatMap] at hd
    obtain ⟨entry, _, hmem⟩ := hd
    rcases List.mem_append.mp hmem with hm | hm
    · rcases List.mem_append.mp hm with hm2 | hm2 <;>
        · obtain ⟨_, _, rfl⟩ := List.mem_map.mp hm2
          rfl
    · simpa using hm
  · intro hzero
    rw [← hzero, hyd, List.mem_flatMap]
    exact ⟨e, he, by simp⟩

/-- Claim C7 counterexample: with a positive max size and a single price, the
price range is zero yet the renderer still performs its y divisions — divisor
zero occurs, so no clamp or special case prevents the division by zero. -/
theorem C7_counterexample :
    FVal.finite 0 ∈ yDivisors flatRangeState ∧
      priceRange flatRangeState = FVal.finite 0 := by
  have h : yDivisors flatRangeState = [FVal.finite 0, FVal.finite 0] := by
    with_unfolding_all rfl
  exact ⟨by rw [h]; simp, by with_unfolding_all rfl⟩

/-- Witness for C7 (amended) at the flat-price window. -/
theorem C7_no_zero_range_guard_witness :
    priceRange flatRangeState ∈ yDivisors flatRangeState := by
  have h := C7_no_zero_range_guard flatRangeState (by with_unfolding_all rfl)
    (1000, [(FVal.finite 10, FVal.finite 5)], []) (by simp [flatRangeState])
  exact h.1

/-- Claim C8 (amended): every snapshot's sell levels are drawn as
2-pixel-tall bar-width rectangles in the red hue `rgba(255,0,0,alpha)` and its
buy levels as 2-pixel-tall bar-width rectangles in the green hue
`rgba(0,255,0,alpha)`, each with `alpha = min(size / max_size, 1.0)`; every
liquidity rectangle of the document has height 2 — not 1 pixel. -/
theorem C8_level_rects (s : OrderBookState) (l : Int × PLMap × PLMap)
    (hl : s.history.getLast? = some l)
    (hms : FVal.fleb (maxSize s) (FVal.finite 0) = false) :
    (∀ e ∈ s.history, ∀ pv ∈ e.2.2,
        Element.liquidity (timeXCoord (l.1 - 300000) e.1)
          (yCoord (minPrice s) (priceRange s) pv.1) (barWidth s.history.length) 2
          255 0 0 (alphaOf pv.2 (maxSize s)) ∈ generate_heatmap s) ∧
      (∀ e ∈ s.history, ∀ pv ∈ e.2.1,
        Element.liquidity (timeXCoord (l.1 - 300000) e.1)
          (yCoord (minPrice s) (priceRange s) pv.1) (barWidth s.history.length) 2
          0 255 0 (alphaOf pv.2 (maxSize s)) ∈ generate_heatmap s) ∧
      (∀ e ∈ generate_heatmap s, ∀ x y w h : Int, ∀ r g b : Nat, ∀ a : FVal,
        e = Element.liquidity x y w h r g b a →
          h = 2 ∧ w = barWidth s.history.length) := by
  have hgh : generate_heatmap s =
      Element.background 0 0 ACTUAL_HEATMAP_WIDTH ::
        (s.history.flatMap
          (snapshotElems (minPrice s) (priceRange s) (maxSize s) (l.1 - 300000)
            (barWidth s.history.length)) ++
          axisElems (minPrice s) (priceRange s)) := by
    rw [generate_heatmap, if_neg (by simp [hms]), hl]
  refine ⟨?_, ?_, ?_⟩
  · intro e he pv hpv
    rw [hgh]
    refine List.mem_cons_of_mem _ (List.mem_append_left _ ?_)
    rw [List.mem_flatMap]
    refine ⟨e, he, ?_⟩
    simp only [snapshotElems]
    exact List.mem_append_left _ (List.mem_append_left _
      (List.mem_map_of_mem _ (List.mem_reverse.mpr hpv)))
  · intro e he pv hpv
    rw [hgh]
    refine List.mem_cons_of_mem _ (List.mem_append_left _ ?_)
    rw [List.mem_flatMap]
    refine ⟨e, he, ?_⟩
    simp only [snapshotElems]
    exact List.mem_append_left _ (List.mem_append_right _
      (List.mem_map_of_mem _ hpv))
  · intro e he x y w h r g b a hle
    obtain ⟨h2, hw, _, _⟩ := liquidity_elem_src s e he x y w h r g b a hle
    exact ⟨h2, hw⟩

/-- Claim C8 counterexample: at the scenario snapshot the document contains
liquidity rectangles (one red sell, one green buy) and each of them is 2
pixels tall; none is the 1-pixel-tall rectangle the claim describes. -/
theorem C8_counterexample :
    ((generate_heatmap levelsRenderState).filter isLiquidity).length = 2 ∧
      ((generate_heatmap levelsRenderState).filter isLiquidity).all
        (fun e => decide (elemHeight e = 2)) = true ∧
      ((generate_heatmap levelsRenderState).filter isLiquidity).all
        (fun e => !decide (elemHeight e = 1)) = true := by
  refine ⟨?_, ?_, ?_⟩ <;> with_unfolding_all rfl

/-- Witness for C8 (amended) at the scenario snapshot's sell level. -/
theorem C8_level_rects_witness :
    Element.liquidity
        (timeXCoord (1000 - 300000) 1000)
        (yCoord (minPrice levelsRenderState) (priceRange levelsRenderState)
          (FVal.finite 11))
        (barWidth levelsRenderState.history.length) 2 255 0 0
        (alphaOf (FVal.finite 3) (maxSize levelsRenderState))
      ∈ generate_heatmap levelsRenderState := by
  have h := C8_level_rects levelsRenderState
    (1000, [(FVal.finite 10, FVal.finite 5)], [(FVal.finite 11, FVal.finite 3)])
    rfl (by with_unfolding_all rfl)
  exact h.1 (1000, [(FVal.finite 10, FVal.finite 5)], [(FVal.finite 11, FVal.finite 3)])
    (by simp [levelsRenderState]) (FVal.finite 11, FVal.finite 3) (by simp)

/-- Claim C4 counterexample: a queue-send failure does not stop reconnection.
In the trace `[queueSendFail, connectFail]` the client makes a second
connection attempt after the queue-send failure — immediately, with no backoff
delay, because `retry_count` was reset by the successful subscribe. -/
theorem C4_counterexample :
    runClient 0 [IterOutcome.queueSendFail, IterOutcome.connectFail] = [0, 0] ∧
      (runClient 0 [IterOutcome.queueSendFail, IterOutcome.connectFail]).length
        = 2 :=
  ⟨rfl, rfl⟩

/-- Claim C4 (amended): a queue-send failure is fatal only to the receive
loop; the outer connection loop continues, making one connection attempt per
subsequent iteration outcome, the first of them with zero delay since
`retry_count` was reset when the subscription succeeded. -/
theorem C4_reconnect_after_queue_fail (rc : Nat) (os : List IterOutcome) :
    (runClient rc os).length = os.length ∧
      runClient rc (IterOutcome.queueSendFail :: os) =
        delayFor rc :: runClient 0 os := by
  constructor
  · induction os generalizing rc with
    | nil => rfl
    | cons o t ih => simp [runClient, ih]
  · rfl

/-- Claim C5 counterexample: after a successful subscribe followed by a stream
error, `retry_count` is not incremented (it stays 0) and the next connection
attempt happens with zero delay, whereas the claimed delay formula
`min(2^retryCount, 30)` is nonzero whether `retryCount` is read before (0) or
after (1) the claimed increment. -/
theorem C5_counterexample :
    runClient 0 [IterOutcome.streamError, IterOutcome.connectFail] = [0, 0] ∧
      nextRetryCount 0 IterOutcome.streamError = 0 ∧
      (0 : Nat) ≠ min (2 ^ 1) 30 ∧ (0 : Nat) ≠ min (2 ^ 0) 30 :=
  ⟨rfl, rfl, by decide, by decide⟩

/-- Claim C5 (amended): after a connect failure or a subscription-send failure
`retry_count` increments and the next attempt waits `min(2^retry_count, 30)`
seconds computed from the incremented count — after two consecutive connect
failures the second attempt occurs after a 2-second delay and the third after
a 4-second delay; the delay never exceeds 30 seconds for any retry count, and
the count resets to zero once a subscribe succeeds. A stream error or stream
end, however, leaves `retry_count` at zero and reconnection is immediate
(zero delay), with no increment. -/
theorem C5_backoff (rc : Nat) :
    nextRetryCount rc IterOutcome.connectFail = rc + 1 ∧
      nextRetryCount rc IterOutcome.sendFail = rc + 1 ∧
      delayFor (rc + 1) = min (2 ^ (rc + 1)) 30 ∧
      delayFor rc ≤ 30 ∧
      nextRetryCount rc IterOutcome.streamError = 0 ∧
      nextRetryCount rc IterOutcome.streamEnd = 0 ∧
      delayFor 0 = 0 ∧
      runClient 0 [IterOutcome.connectFail, IterOutcome.connectFail,
        IterOutcome.connectFail] = [0, 2, 4] := by
  refine ⟨rfl, rfl, ?_, ?_, rfl, rfl, rfl, rfl⟩
  · simp [delayFor]
  · rw [delayFor]
    split
    · exact min_le_right _ _
    · omega

/-- Claim C9 counterexample: the price text `"NaN"` parses successfully
(Rust `f64::from_str` accepts it), so the level is not rejected: the buy map
gains the NaN key, which is not finite. -/
theorem C9_counterexample :
    parseF64 "NaN" = some FVal.nan ∧
      lookupPL (applyMsg OrderBookState.new
          ⟨"@107", [[⟨"NaN", "5", 1⟩]], 1000⟩).buy FVal.nan =
        some (FVal.finite 5) :=
  ⟨by with_unfolding_all rfl, by with_unfolding_all rfl⟩

/-- Claim C9 (amended): parse-time rejection only filters texts that fail
`f64` parsing. The spellings of NaN and infinity parse successfully, and any
successfully parsed price — finite or not — is inserted into the map wrapped
in the total-order adapter, so the map keys are not guaranteed finite. -/
theorem C9_parse_accepts_nonfinite (st : OrderBookState) (c : String)
    (px sz : String) (n t : Int) (v w : FVal)
    (hpx : parseF64 px = some v) (hsz : parseF64 sz = some w) :
    (applyMsg st ⟨c, [[⟨px, sz, n⟩]], t⟩).buy = [(v, w)] ∧
      parseF64 "NaN" = some FVal.nan ∧ parseF64 "inf" = some FVal.inf := by
  refine ⟨?_, by with_unfolding_all rfl, by with_unfolding_all rfl⟩
  have h := (applyMsg_fields st ⟨c, [[⟨px, sz, n⟩]], t⟩).1
  rw [h]
  simp [buildMapFrom, parseLevel, hpx, hsz, upsert]

/-- Witness for C9 (amended): the NaN-priced level is inserted. -/
theorem C9_parse_accepts_nonfinite_witness :
    (applyMsg OrderBookState.new ⟨"@107", [[⟨"NaN", "5", 1⟩]], 1000⟩).buy =
      [(FVal.nan, FVal.finite 5)] :=
  (C9_parse_accepts_nonfinite OrderBookState.new "@107" "NaN" "5" 1 1000
    FVal.nan (FVal.finite 5) (by with_unfolding_all rfl)
    (by with_unfolding_all rfl)).1
